import Mathlib

/-!
Verification development for the qord dispatch core (`qord/core/dispatch.py`)
and cooperative rate-limit scheduler (`qord/core/ratelimits.py`).

The Python code is shallowly embedded: Python dicts become association
lists over `String` keys, `asyncio.Lock` objects become numeric lock
identities allocated by the registry, `asyncio.Event`/`asyncio.Future`
become explicit state fields, and fallible operations return `Except`.
Every definition is translated directly from the corresponding Python
function; doc comments name the source location.
-/

/-- Association-list lookup modelling Python `dict.get` / `dict[k]`:
returns the value of the first entry whose key equals `k`. -/
def lookupKey {α : Type} (l : List (String × α)) (k : String) : Option α :=
  match l with
  | [] => none
  | (k', v) :: t => if k' = k then some v else lookupKey t k

/-- Removes the entry with key `k` (Python `dict.pop(k, ...)` effect on
a dict, whose keys are unique). -/
def eraseKey {α : Type} : List (String × α) → String → List (String × α)
  | [], _ => []
  | p :: t, k => if p.1 = k then eraseKey t k else p :: eraseKey t k

/-- Overwriting insertion, modelling Python `d[k] = v`. -/
def setKey {α : Type} (l : List (String × α)) (k : String) (v : α) : List (String × α) :=
  (k, v) :: eraseKey l k

theorem lookupKey_setKey_same {α : Type} (l : List (String × α)) (k : String) (v : α) :
    lookupKey (setKey l k v) k = some v := by
  simp [setKey, lookupKey]

theorem lookupKey_eraseKey_same {α : Type} (l : List (String × α)) (k : String) :
    lookupKey (eraseKey l k) k = none := by
  induction l with
  | nil => simp [eraseKey, lookupKey]
  | cons p t ih =>
    by_cases h : p.1 = k
    · simpa [eraseKey, h] using ih
    · simpa [eraseKey, lookupKey, h] using ih

theorem lookupKey_eraseKey_ne {α : Type} (l : List (String × α)) (k k' : String) (h : ¬(k = k')) :
    lookupKey (eraseKey l k) k' = lookupKey l k' := by
  have h' : ¬(k' = k) := fun hc => h hc.symm
  induction l with
  | nil => simp [eraseKey, lookupKey]
  | cons p t ih =>
    by_cases hp : p.1 = k
    · have hpk : ¬(p.1 = k') := fun hc => h (hp ▸ hc)
      simpa [eraseKey, lookupKey, hp, hpk, h, h'] using ih
    · by_cases hp' : p.1 = k'
      · simp [eraseKey, lookupKey, hp, hp', h, h']
      · simpa [eraseKey, lookupKey, hp, hp'] using ih

theorem lookupKey_setKey_ne {α : Type} (l : List (String × α)) (k k' : String) (v : α)
    (h : ¬(k = k')) :
    lookupKey (setKey l k v) k' = lookupKey l k' := by
  rw [setKey, lookupKey, if_neg h, lookupKey_eraseKey_ne l k k' h]

/-- A Python value that can appear among a route's path parameters. -/
inductive PyVal : Type
  | int (n : Int)
  | str (s : String)
  | pynone
deriving DecidableEq, Repr

/-- Python `str(v)` / f-string interpolation of a parameter value. -/
def pyStr : PyVal → String
  | PyVal.int n => toString n
  | PyVal.str s => s
  | PyVal.pynone => "None"

/-- Python f-string interpolation of `params.get(key)`: a missing key
renders as `None`. -/
def fmtOptParam : Option PyVal → String
  | none => "None"
  | some v => pyStr v

def lbraceChar : Char := Char.ofNat 123

def rbraceChar : Char := Char.ofNat 125

/-- Character-level model of Python `str.format_map(params)` as used by
`Route.url` (`qord/core/ratelimits.py` line 55): literal characters are
copied; a `\x7b name \x7d` field is replaced by the stringified parameter
value; a field naming a missing parameter raises `KeyError`, modelled as
`Except.error`.  The first argument is `none` while scanning literal text
and `some acc` while collecting a field name. -/
def renderGo (ps : List (String × PyVal)) : Option (List Char) → List Char → Except String (List Char)
  | none, [] => Except.ok []
  | some _, [] => Except.error "unterminated placeholder"
  | none, c :: cs =>
      if c = lbraceChar then renderGo ps (some []) cs
      else (renderGo ps none cs).map (fun r => c :: r)
  | some acc, c :: cs =>
      if c = rbraceChar then
        match lookupKey ps (String.mk acc) with
        | none => Except.error ("KeyError " ++ String.mk acc)
        | some v => (renderGo ps none cs).map (fun r => (pyStr v).data ++ r)
      else renderGo ps (some (acc ++ [c])) cs

/-- `template.format_map(params)` on whole strings. -/
def formatMap (template : String) (ps : List (String × PyVal)) : Except String String :=
  (renderGo ps none template.data).map (fun cs => String.mk cs)

/-- `REST_BASE_URL` (`qord/core/ratelimits.py` line 34). -/
def REST_BASE_URL : String := "https://discord.com/api/v10"

/-- The `Route` class (`qord/core/ratelimits.py` lines 37-65): a pure
value holding method, path template, auth flag and named path
parameters. -/
structure Route : Type where
  method : String
  path : String
  requires_auth : Bool
  params : List (String × PyVal)
deriving DecidableEq, Repr

/-- `Route.__init__` (`qord/core/ratelimits.py` lines 40-51): performs
only attribute assignments, so it cannot raise; modelled in `Except` so
that "construction-time failure" is expressible at all. -/
def routeInit (method : String) (path : String) (requires_auth : Bool)
    (params : List (String × PyVal)) : Except String Route :=
  Except.ok (Route.mk method path requires_auth params)

/-- `Route.url` property (`qord/core/ratelimits.py` lines 53-55):
`REST_BASE_URL + self.path.format_map(self.params)`; the `KeyError` of a
missing placeholder parameter propagates from here. -/
def Route.url (r : Route) : Except String String :=
  (formatMap r.path r.params).map (fun s => REST_BASE_URL ++ s)

/-- `Route.ratelimit_path` property (`qord/core/ratelimits.py` lines
57-62): the grouping key
`f"\x7bmethod\x7d-\x7bpath\x7d-\x7bguild_id\x7d:\x7bchannel_id\x7d"`
where `guild_id`/`channel_id` come from `params.get` and render as
`None` when absent. -/
def Route.ratelimit_path (r : Route) : String :=
  r.method ++ "-" ++ r.path ++ "-" ++ fmtOptParam (lookupKey r.params "guild_id")
    ++ ":" ++ fmtOptParam (lookupKey r.params "channel_id")

/-- The fixed route of spec property 7. -/
def guildRolesRoute : Route :=
  Route.mk "GET" "/guilds/{guild_id}/roles" true [("guild_id", PyVal.int 42)]

/-- C7: the rendered url is the base URL plus the substituted path
`/guilds/42/roles`, and the grouping key is the method, the unrendered
template and the `guild_id` value joined by dashes, ending in `:None`
because the absent `channel_id` parameter renders as `None`. -/
theorem route_url_and_ratelimit_path_roundtrip :
    guildRolesRoute.url = Except.ok "https://discord.com/api/v10/guilds/42/roles"
      ∧ guildRolesRoute.ratelimit_path = "GET-/guilds/{guild_id}/roles-42:None"
      ∧ lookupKey guildRolesRoute.params "channel_id" = none := by
  refine ⟨rfl, by decide, by decide⟩

/-- The `RatelimitHandler` class state (`qord/core/ratelimits.py` lines
68-78).  `asyncio.Lock` objects are modelled by numeric identities
allocated from `nextId`; `locks` maps a bucket hash or ratelimit path to
a lock identity, `buckets` maps a ratelimit path to its learned bucket
hash, and `globalOpen` models whether the `global_ratelimit_cleared`
`asyncio.Event` is set. -/
structure RatelimitHandler : Type where
  locks : List (String × Nat)
  buckets : List (String × String)
  nextId : Nat
  globalOpen : Bool
deriving DecidableEq, Repr

/-- `RatelimitHandler.__init__` (lines 69-78): empty maps, global event
initially set. -/
def RatelimitHandler.init : RatelimitHandler :=
  RatelimitHandler.mk [] [] 0 true

/-- `RatelimitHandler.clear` (lines 80-83): `locks.clear()` and
`buckets.clear()`; nothing else is touched. -/
def RatelimitHandler.clear (s : RatelimitHandler) : RatelimitHandler :=
  { s with locks := [], buckets := [] }

/-- `RatelimitHandler.set_global` (lines 85-87): clears the
`global_ratelimit_cleared` event, closing the global gate. -/
def RatelimitHandler.set_global (s : RatelimitHandler) : RatelimitHandler :=
  { s with globalOpen := false }

/-- `RatelimitHandler.reset_global` (lines 89-91): sets the event,
reopening the global gate. -/
def RatelimitHandler.reset_global (s : RatelimitHandler) : RatelimitHandler :=
  { s with globalOpen := true }

/-- `RatelimitHandler.wait_until_global_reset` (lines 93-95) returns
without suspending exactly when the event is set; a caller can proceed
iff the gate is open. -/
def RatelimitHandler.canProceedGlobal (s : RatelimitHandler) : Bool :=
  s.globalOpen

/-- `RatelimitHandler.get_lock` (lines 97-112): resolve `path` through
`buckets` (falling back to `path` itself), return the lock stored under
the resolved key, creating and storing a fresh lock if none exists.
Returns the lock identity together with the updated state. -/
def RatelimitHandler.get_lock (s : RatelimitHandler) (path : String) : Nat × RatelimitHandler :=
  let key := (lookupKey s.buckets path).getD path
  match lookupKey s.locks key with
  | some id => (id, s)
  | none =>
      (s.nextId, { s with locks := setKey s.locks key s.nextId, nextId := s.nextId + 1 })

/-- `RatelimitHandler.set_bucket` (lines 114-127): pop any lock stored
under the route's path and re-store it under the bucket hash, then
record the path-to-bucket mapping. -/
def RatelimitHandler.set_bucket (s : RatelimitHandler) (path : String) (bucket : String) :
    RatelimitHandler :=
  match lookupKey s.locks path with
  | none => { s with buckets := setKey s.buckets path bucket }
  | some id =>
      { s with
        locks := setKey (eraseKey s.locks path) bucket id,
        buckets := setKey s.buckets path bucket }

/-- C9: `clear()` empties only `locks` and `buckets`; the global gate is
untouched, so after `set_global(); clear()` the gate is still closed and
callers of `wait_until_global_reset` still suspend until `reset_global()`
reopens it. -/
theorem clear_leaves_global_gate (s : RatelimitHandler) :
    (s.clear.locks = [] ∧ s.clear.buckets = [] ∧ s.clear.globalOpen = s.globalOpen
        ∧ s.clear.nextId = s.nextId)
      ∧ s.set_global.clear.canProceedGlobal = false
      ∧ s.set_global.clear.reset_global.canProceedGlobal = true := by
  refine ⟨⟨rfl, rfl, rfl, rfl⟩, rfl, rfl⟩

/-- Cooperative interleaving model for requests using the registry.
`MState` pairs the registry state with the set of requests currently
holding a lock: `holders` lists `(request, lock identity)` pairs.  In
asyncio one thread runs at a time and `get_lock` plus a successful
uncontended `Lock.acquire()` complete without suspension, so each trace
event below is one atomic step. -/
structure MState : Type where
  rl : RatelimitHandler
  holders : List (Nat × Nat)
deriving DecidableEq, Repr

/-- One registry operation as seen in a trace: `acq r p` is request `r`
performing `get_lock(p)` followed by `Lock.acquire()` (a no-op on the
registry if the resolved lock is already held, since the request then
suspends without holding anything); `rel r` is request `r` releasing its
lock; `setB p b` is `set_bucket(p, b)`. -/
inductive Ev : Type
  | acq (r : Nat) (p : String)
  | rel (r : Nat)
  | setB (p : String) (b : String)
deriving DecidableEq, Repr

def stepM (s : MState) : Ev → MState
  | Ev.acq r p =>
      let res := s.rl.get_lock p
      if s.holders.any (fun h => h.2 = res.1) then { s with rl := res.2 }
      else { rl := res.2, holders := (r, res.1) :: s.holders }
  | Ev.rel r => { s with holders := s.holders.filter (fun h => ¬(h.1 = r)) }
  | Ev.setB p b => { s with rl := s.rl.set_bucket p b }

def runM (tr : List Ev) : MState :=
  tr.foldl stepM (MState.mk RatelimitHandler.init [])

/-- Request `r` currently holds a lock. -/
def isHolder (s : MState) (r : Nat) : Bool :=
  s.holders.any (fun h => h.1 = r)

/-- The lock stored under `key` exists and is currently held. -/
def heldUnder (s : MState) (key : String) : Bool :=
  match lookupKey s.rl.locks key with
  | some id => s.holders.any (fun h => h.2 = id)
  | none => false

/-- C2: when a lock exists under the grouping key, `set_bucket` moves
that very lock identity to the bucket entry, records the path-to-bucket
mapping, leaves every holder in place, and a subsequent `get_lock(path)`
resolves (without allocating) to the same lock, so a holder that
acquired under the grouping key is still held under the new bucket. -/
theorem set_bucket_migrates_lock (m : MState) (path bucket : String) (id : Nat)
    (hlock : lookupKey m.rl.locks path = some id) :
    lookupKey (stepM m (Ev.setB path bucket)).rl.locks bucket = some id
      ∧ lookupKey (stepM m (Ev.setB path bucket)).rl.buckets path = some bucket
      ∧ (stepM m (Ev.setB path bucket)).holders = m.holders
      ∧ ((stepM m (Ev.setB path bucket)).rl.get_lock path).1 = id
      ∧ ((stepM m (Ev.setB path bucket)).rl.get_lock path).2 = (stepM m (Ev.setB path bucket)).rl
      ∧ heldUnder (stepM m (Ev.setB path bucket)) bucket
          = m.holders.any (fun h => h.2 = id) := by
  have hstep : (stepM m (Ev.setB path bucket)).rl = m.rl.set_bucket path bucket := rfl
  have hsb : m.rl.set_bucket path bucket =
      { m.rl with
        locks := setKey (eraseKey m.rl.locks path) bucket id,
        buckets := setKey m.rl.buckets path bucket } := by
    rw [RatelimitHandler.set_bucket, hlock]
  have hlocks : lookupKey (m.rl.set_bucket path bucket).locks bucket = some id := by
    rw [hsb]; exact lookupKey_setKey_same _ _ _
  have hbuckets : lookupKey (m.rl.set_bucket path bucket).buckets path = some bucket := by
    rw [hsb]; exact lookupKey_setKey_same _ _ _
  have hget : (m.rl.set_bucket path bucket).get_lock path =
      (id, m.rl.set_bucket path bucket) := by
    rw [RatelimitHandler.get_lock]
    simp only [hbuckets, Option.getD_some, hlocks]
  refine ⟨hlocks, hbuckets, rfl, ?_, ?_, ?_⟩
  · rw [hstep, hget]
  · rw [hstep, hget]
  · show heldUnder { m with rl := m.rl.set_bucket path bucket } bucket = _
    rw [heldUnder]
    simp only [hlocks]

/-- C2 witness: a concrete registry where request 5 holds lock 0 under
grouping key `K`; after `set_bucket` the same lock sits under bucket
`B`, the holder is unchanged, `get_lock` finds it, and it is held. -/
theorem set_bucket_migrates_lock_witness :
    lookupKey (stepM (MState.mk (RatelimitHandler.mk [("K", 0)] [] 1 true) [(5, 0)])
        (Ev.setB "K" "B")).rl.locks "B" = some 0
      ∧ (stepM (MState.mk (RatelimitHandler.mk [("K", 0)] [] 1 true) [(5, 0)])
          (Ev.setB "K" "B")).holders = [(5, 0)]
      ∧ ((stepM (MState.mk (RatelimitHandler.mk [("K", 0)] [] 1 true) [(5, 0)])
          (Ev.setB "K" "B")).rl.get_lock "K").1 = 0
      ∧ heldUnder (stepM (MState.mk (RatelimitHandler.mk [("K", 0)] [] 1 true) [(5, 0)])
          (Ev.setB "K" "B")) "B" = true := by
  have h := set_bucket_migrates_lock
    (MState.mk (RatelimitHandler.mk [("K", 0)] [] 1 true) [(5, 0)]) "K" "B" 0 (by decide)
  exact ⟨h.1, h.2.2.1, h.2.2.2.1, by rw [h.2.2.2.2.2]; decide⟩

/-- Operations "issued through the registry against two route
descriptors sharing grouping key `K`": every acquire resolves `K`, and
`set_bucket` records bucket `b` for `K`. -/
def allowedEv (K B : String) : Ev → Bool
  | Ev.acq _ p => p = K
  | Ev.rel _ => true
  | Ev.setB p b => p = K && b = B

/-- The lock identity `get_lock K` would currently resolve to, if one is
stored. -/
def resolvedLock (s : MState) (K : String) : Option Nat :=
  lookupKey s.rl.locks ((lookupKey s.rl.buckets K).getD K)

/-- Inductive invariant for traces whose acquires all use grouping key
`K` and whose `set_bucket` calls all record the fixed bucket `B` for
`K`: every current holder holds the lock `K` resolves to, at most one
request holds at a time, and once the bucket mapping is recorded no
stale lock remains stored under `K` itself. -/
def MutexInv (K B : String) (s : MState) : Prop :=
  (∀ h ∈ s.holders, resolvedLock s K = some h.2)
    ∧ s.holders.length ≤ 1
    ∧ (lookupKey s.rl.buckets K = none
        ∨ (lookupKey s.rl.buckets K = some B
            ∧ (¬(B = K) → lookupKey s.rl.locks K = none)))

theorem mutexInv_init (K B : String) : MutexInv K B (MState.mk RatelimitHandler.init []) := by
  refine ⟨by simp, by simp, Or.inl rfl⟩

theorem mutexInv_step (K B : String) (s : MState) (e : Ev)
    (hinv : MutexInv K B s) (he : allowedEv K B e = true) :
    MutexInv K B (stepM s e) := by
  obtain ⟨h1, h2, h3⟩ := hinv
  cases e with
  | acq r p =>
    have hp : p = K := by simpa [allowedEv] using he
    rw [hp]
    cases hl : lookupKey s.rl.locks ((lookupKey s.rl.buckets K).getD K) with
    | some id =>
      have hget : s.rl.get_lock K = (id, s.rl) := by
        simp [RatelimitHandler.get_lock, hl]
      by_cases hany : s.holders.any (fun h => h.2 = id) = true
      · have : stepM s (Ev.acq r K) = s := by
          simp [stepM, hget, hany]
        rw [this]; exact ⟨h1, h2, h3⟩
      · have hnil : s.holders = [] := by
          cases hh : s.holders with
          | nil => rfl
          | cons h0 t =>
            exfalso
            have hres := h1 h0 (by rw [hh]; exact List.mem_cons_self h0 t)
            rw [resolvedLock, hl] at hres
            have h02 : h0.2 = id := (Option.some.inj hres).symm
            exact hany (by
              rw [List.any_eq_true]
              exact ⟨h0, by rw [hh]; exact List.mem_cons_self h0 t, by simp [h02]⟩)
        have hstep : stepM s (Ev.acq r K) = MState.mk s.rl [(r, id)] := by
          simp [stepM, hget, hnil]
        rw [hstep]
        refine ⟨?_, by simp, h3⟩
        intro h hmem
        have : h = (r, id) := by simpa using hmem
        rw [this, resolvedLock, hl]
    | none =>
      have hget : s.rl.get_lock K =
          (s.rl.nextId,
            { s.rl with
              locks := setKey s.rl.locks ((lookupKey s.rl.buckets K).getD K) s.rl.nextId,
              nextId := s.rl.nextId + 1 }) := by
        simp [RatelimitHandler.get_lock, hl]
      have hnil : s.holders = [] := by
        cases hh : s.holders with
        | nil => rfl
        | cons h0 t =>
          exfalso
          have hres := h1 h0 (by rw [hh]; exact List.mem_cons_self h0 t)
          rw [resolvedLock, hl] at hres
          exact Option.noConfusion hres
      have hstep : stepM s (Ev.acq r K) =
          MState.mk
            { s.rl with
              locks := setKey s.rl.locks ((lookupKey s.rl.buckets K).getD K) s.rl.nextId,
              nextId := s.rl.nextId + 1 }
            [(r, s.rl.nextId)] := by
        simp [stepM, hget, hnil]
      rw [hstep]
      refine ⟨?_, by simp, ?_⟩
      · intro h hmem
        have hh : h = (r, s.rl.nextId) := by simpa using hmem
        rw [hh, resolvedLock]
        show lookupKey (setKey s.rl.locks ((lookupKey s.rl.buckets K).getD K) s.rl.nextId)
            ((lookupKey s.rl.buckets K).getD K) = some s.rl.nextId
        exact lookupKey_setKey_same _ _ _
      · cases h3 with
        | inl hb => exact Or.inl hb
        | inr hb =>
          refine Or.inr ⟨hb.1, fun hBK => ?_⟩
          show lookupKey (setKey s.rl.locks ((lookupKey s.rl.buckets K).getD K) s.rl.nextId)
              K = none
          rw [hb.1]
          show lookupKey (setKey s.rl.locks B s.rl.nextId) K = none
          rw [lookupKey_setKey_ne _ _ _ _ hBK]
          exact hb.2 hBK
  | rel r =>
    refine ⟨?_, ?_, h3⟩
    · intro h hmem
      exact h1 h (List.mem_of_mem_filter hmem)
    · exact le_trans (List.length_filter_le _ _) h2
  | setB p b =>
    have hpb : p = K ∧ b = B := by simpa [allowedEv] using he
    obtain ⟨hp, hb⟩ := hpb
    rw [hp, hb]
    cases hlK : lookupKey s.rl.locks K with
    | none =>
      have hstep : stepM s (Ev.setB K B) =
          MState.mk { s.rl with buckets := setKey s.rl.buckets K B } s.holders := by
        simp [stepM, RatelimitHandler.set_bucket, hlK]
      rw [hstep]
      refine ⟨?_, h2, Or.inr ⟨lookupKey_setKey_same _ _ _, fun _ => hlK⟩⟩
      intro h hmem
      have hres := h1 h hmem
      cases h3 with
      | inl hbnone =>
        exfalso
        rw [resolvedLock, hbnone] at hres
        simp only [Option.getD_none] at hres
        rw [hlK] at hres
        exact Option.noConfusion hres
      | inr hbB =>
        rw [resolvedLock, hbB.1] at hres
        simp only [Option.getD_some] at hres
        rw [resolvedLock]
        show lookupKey s.rl.locks ((lookupKey (setKey s.rl.buckets K B) K).getD K) = some h.2
        rw [lookupKey_setKey_same]
        exact hres
    | some id =>
      have hstep : stepM s (Ev.setB K B) =
          MState.mk
            { s.rl with
              locks := setKey (eraseKey s.rl.locks K) B id,
              buckets := setKey s.rl.buckets K B } s.holders := by
        simp [stepM, RatelimitHandler.set_bucket, hlK]
      rw [hstep]
      refine ⟨?_, h2, ?_⟩
      · intro h hmem
        have hres := h1 h hmem
        have h2id : h.2 = id := by
          cases h3 with
          | inl hbnone =>
            rw [resolvedLock, hbnone] at hres
            simp only [Option.getD_none] at hres
            rw [hlK] at hres
            exact (Option.some.inj hres).symm
          | inr hbB =>
            by_cases hBK : B = K
            · rw [resolvedLock, hbB.1] at hres
              simp only [Option.getD_some] at hres
              rw [hBK, hlK] at hres
              exact (Option.some.inj hres).symm
            · exact absurd hlK (by rw [hbB.2 hBK]; exact fun hc => Option.noConfusion hc)
        rw [resolvedLock, h2id]
        show lookupKey (setKey (eraseKey s.rl.locks K) B id)
            ((lookupKey (setKey s.rl.buckets K B) K).getD K) = some id
        rw [lookupKey_setKey_same]
        show lookupKey (setKey (eraseKey s.rl.locks K) B id) B = some id
        exact lookupKey_setKey_same _ _ _
      · refine Or.inr ⟨lookupKey_setKey_same _ _ _, fun hBK => ?_⟩
        show lookupKey (setKey (eraseKey s.rl.locks K) B id) K = none
        rw [lookupKey_setKey_ne _ _ _ _ hBK]
        exact lookupKey_eraseKey_same _ _

theorem mutexInv_run (K B : String) (tr : List Ev) (s : MState)
    (hinv : MutexInv K B s) (hall : ∀ e ∈ tr, allowedEv K B e = true) :
    MutexInv K B (tr.foldl stepM s) := by
  induction tr generalizing s with
  | nil => exact hinv
  | cons e t ih =>
    exact ih (stepM s e)
      (mutexInv_step K B s e hinv (hall e (List.mem_cons_self e t)))
      (fun e' he' => hall e' (List.mem_cons_of_mem e he'))

/-- C3 counterexample: a sequence of operations against two requests
that share grouping key `K` (request 0 and request 1, every acquire
eventually released) in which two `set_bucket` calls record different
bucket ids for `K`.  After `acq 0, set_bucket(K,B1), set_bucket(K,B2),
acq 1` — the first four steps of the full trace ending in the two
releases — request 1 resolves a fresh lock instead of the one request 0
holds, so both requests are in the acquired state at one instant,
refuting the claim as stated. -/
theorem route_mutex_counterexample :
    isHolder (runM (([Ev.acq 0 "K", Ev.setB "K" "B1", Ev.setB "K" "B2",
          Ev.acq 1 "K", Ev.rel 0, Ev.rel 1]).take 4)) 0 = true
      ∧ isHolder (runM (([Ev.acq 0 "K", Ev.setB "K" "B1", Ev.setB "K" "B2",
          Ev.acq 1 "K", Ev.rel 0, Ev.rel 1]).take 4)) 1 = true := by
  refine ⟨by decide, by decide⟩

/-- C3 (amended): for all sequences of acquire/release operations by two
requests against descriptors sharing grouping key `K`, with any
interleaving of `set_bucket` calls that record one fixed bucket id `B`
for `K`, at most one request holds at any instant; in particular
requests 0 and 1 are never both in the acquired state. -/
theorem route_mutex_fixed_bucket (K B : String) (tr : List Ev)
    (hall : ∀ e ∈ tr, allowedEv K B e = true) :
    (runM tr).holders.length ≤ 1
      ∧ ¬(isHolder (runM tr) 0 = true ∧ isHolder (runM tr) 1 = true) := by
  have hinv := mutexInv_run K B tr (MState.mk RatelimitHandler.init [])
    (mutexInv_init K B) hall
  obtain ⟨-, h2, -⟩ := hinv
  refine ⟨h2, ?_⟩
  rintro ⟨ha, hb⟩
  rw [isHolder, List.any_eq_true] at ha hb
  obtain ⟨x, hx, hx1⟩ := ha
  obtain ⟨y, hy, hy1⟩ := hb
  simp only [decide_eq_true_eq] at hx1 hy1
  cases hh : (runM tr).holders with
  | nil => rw [hh] at hx; exact absurd hx (List.not_mem_nil x)
  | cons z t =>
    cases t with
    | nil =>
      rw [hh] at hx hy
      have hxz : x = z := by simpa using hx
      have hyz : y = z := by simpa using hy
      rw [hxz] at hx1
      rw [hyz] at hy1
      rw [hx1] at hy1
      exact Nat.noConfusion hy1
    | cons z' t' =>
      have hlen : (runM tr).holders.length ≤ 1 := h2
      rw [hh] at hlen
      simp at hlen

/-- C3 witness: a concrete fixed-bucket trace — acquire, migrate,
contended acquire, release, re-acquire — for which mutual exclusion
holds. -/
theorem route_mutex_fixed_bucket_witness :
    (runM [Ev.acq 0 "K", Ev.setB "K" "B", Ev.acq 1 "K", Ev.rel 0,
        Ev.acq 1 "K"]).holders.length ≤ 1
      ∧ ¬(isHolder (runM [Ev.acq 0 "K", Ev.setB "K" "B", Ev.acq 1 "K", Ev.rel 0,
          Ev.acq 1 "K"]) 0 = true
        ∧ isHolder (runM [Ev.acq 0 "K", Ev.setB "K" "B", Ev.acq 1 "K", Ev.rel 0,
          Ev.acq 1 "K"]) 1 = true) :=
  route_mutex_fixed_bucket "K" "B"
    [Ev.acq 0 "K", Ev.setB "K" "B", Ev.acq 1 "K", Ev.rel 0, Ev.acq 1 "K"]
    (by decide)

/-- Events affecting the aggregate-ready bookkeeping of
`DispatchHandler` (`qord/core/dispatch.py`): `ready` is `on_ready`
handling a shard's READY payload (lines 111-126, synchronous in the
`_ready_task` fields since `asyncio.create_task` does not suspend);
`shardsConnected` is the external shard manager setting the
`_shards_connected` event; `aggDone` is the aggregate
`_prepare_ready(None)` task running to completion (lines 103-109),
which can only happen once `_shards_connected` is set (line 94) while
the task exists. -/
inductive DEv : Type
  | ready
  | shardsConnected
  | aggDone
deriving DecidableEq, Repr

/-- Dispatch-handler state relevant to aggregate readiness:
`shardsConnected` models the `_shards_connected` event,
`readyTaskActive` models `_ready_task is not None`, and the two
counters record how often the aggregate wait was started (line 126) and
how often the aggregate `Ready` event was emitted (lines 105-106). -/
structure DState : Type where
  shardsConnected : Bool
  readyTaskActive : Bool
  aggStarts : Nat
  aggEmits : Nat
deriving DecidableEq, Repr

/-- `DispatchHandler.__init__` (lines 50-59): event unset, no ready
task. -/
def DState.init : DState := DState.mk false false 0 0

/-- One dispatch-core step.  `ready`: lines 123-126 — start the
aggregate `_prepare_ready()` task only if `_ready_task is None`.
`aggDone`: lines 94 and 103-109 — when the aggregate task exists and
`_shards_connected` is set, its quiescence loop may time out, emitting
`Ready` exactly once and resetting `_ready_task` to `None`. -/
def stepD (s : DState) : DEv → DState
  | DEv.ready =>
      if s.readyTaskActive then s
      else { s with readyTaskActive := true, aggStarts := s.aggStarts + 1 }
  | DEv.shardsConnected => { s with shardsConnected := true }
  | DEv.aggDone =>
      if s.readyTaskActive && s.shardsConnected then
        { s with readyTaskActive := false, aggEmits := s.aggEmits + 1 }
      else s

def runD (evs : List DEv) : DState := evs.foldl stepD DState.init

/-- Phase 1: while `_shards_connected` is still unset, no aggregate
emission can happen, and the start counter tracks whether the task is
active (`on_ready` starts it exactly once). -/
theorem dispatch_phase1 (l : List DEv) (s : DState)
    (hnc : DEv.shardsConnected ∉ l) (hs : s.shardsConnected = false)
    (he : s.aggEmits = 0)
    (hact : s.readyTaskActive = true → s.aggStarts = 1)
    (hinact : s.readyTaskActive = false → s.aggStarts = 0) :
    (l.foldl stepD s).shardsConnected = false
      ∧ (l.foldl stepD s).aggEmits = 0
      ∧ ((l.foldl stepD s).readyTaskActive = true → (l.foldl stepD s).aggStarts = 1)
      ∧ ((l.foldl stepD s).readyTaskActive = false → (l.foldl stepD s).aggStarts = 0)
      ∧ ((DEv.ready ∈ l ∨ s.readyTaskActive = true) → (l.foldl stepD s).readyTaskActive = true) := by
  induction l generalizing s with
  | nil =>
    refine ⟨hs, he, hact, hinact, ?_⟩
    rintro (hmem | hr)
    · exact absurd hmem (List.not_mem_nil _)
    · exact hr
  | cons e t ih =>
    have hnc' : DEv.shardsConnected ∉ t := fun hm => hnc (List.mem_cons_of_mem e hm)
    cases e with
    | ready =>
      by_cases hr : s.readyTaskActive = true
      · have hstep : stepD s DEv.ready = s := by simp [stepD, hr]
        rw [List.foldl_cons, hstep]
        have h := ih s hnc' hs he hact hinact
        exact ⟨h.1, h.2.1, h.2.2.1, h.2.2.2.1, fun _ => h.2.2.2.2 (Or.inr hr)⟩
      · have hr' : s.readyTaskActive = false := by
          cases hb : s.readyTaskActive
          · rfl
          · exact absurd hb hr
        have hstep : stepD s DEv.ready =
            { s with readyTaskActive := true, aggStarts := s.aggStarts + 1 } := by
          simp [stepD, hr']
        rw [List.foldl_cons, hstep]
        have h := ih { s with readyTaskActive := true, aggStarts := s.aggStarts + 1 }
          hnc' hs he (fun _ => by simp [hinact hr']) (fun hc => Bool.noConfusion hc)
        exact ⟨h.1, h.2.1, h.2.2.1, h.2.2.2.1, fun _ => h.2.2.2.2 (Or.inr rfl)⟩
    | shardsConnected =>
      exact absurd (List.mem_cons_self _ t) hnc
    | aggDone =>
      have hstep : stepD s DEv.aggDone = s := by simp [stepD, hs]
      rw [List.foldl_cons, hstep]
      have h := ih s hnc' hs he hact hinact
      refine ⟨h.1, h.2.1, h.2.2.1, h.2.2.2.1, ?_⟩
      rintro (hmem | hr)
      · rcases List.mem_cons.mp hmem with hc | hm
        · exact absurd hc (by simp)
        · exact h.2.2.2.2 (Or.inl hm)
      · exact h.2.2.2.2 (Or.inr hr)

/-- Phase 2: once `_shards_connected` is set, with no further READY
payloads, the start counter is frozen at 1 and the task either is still
waiting (no emission yet) or has completed (exactly one emission);
completion is irreversible and happens as soon as one `aggDone` occurs. -/
theorem dispatch_phase2 (l : List DEv) (s : DState)
    (hnr : DEv.ready ∉ l) (hs : s.shardsConnected = true)
    (hstart : s.aggStarts = 1)
    (hdisj : (s.readyTaskActive = true ∧ s.aggEmits = 0)
      ∨ (s.readyTaskActive = false ∧ s.aggEmits = 1)) :
    (l.foldl stepD s).shardsConnected = true
      ∧ (l.foldl stepD s).aggStarts = 1
      ∧ (((l.foldl stepD s).readyTaskActive = true ∧ (l.foldl stepD s).aggEmits = 0)
        ∨ ((l.foldl stepD s).readyTaskActive = false ∧ (l.foldl stepD s).aggEmits = 1))
      ∧ ((DEv.aggDone ∈ l ∨ s.readyTaskActive = false)
          → (l.foldl stepD s).readyTaskActive = false) := by
  induction l generalizing s with
  | nil =>
    refine ⟨hs, hstart, hdisj, ?_⟩
    rintro (hmem | hr)
    · exact absurd hmem (List.not_mem_nil _)
    · exact hr
  | cons e t ih =>
    have hnr' : DEv.ready ∉ t := fun hm => hnr (List.mem_cons_of_mem e hm)
    cases e with
    | ready => exact absurd (List.mem_cons_self _ t) hnr
    | shardsConnected =>
      rw [List.foldl_cons]
      have h := ih { s with shardsConnected := true } hnr' rfl hstart hdisj
      refine ⟨h.1, h.2.1, h.2.2.1, ?_⟩
      rintro (hmem | hr)
      · rcases List.mem_cons.mp hmem with hc | hm
        · exact absurd hc (by simp)
        · exact h.2.2.2 (Or.inl hm)
      · exact h.2.2.2 (Or.inr hr)
    | aggDone =>
      cases hdisj with
      | inl hactive =>
        have hstep : stepD s DEv.aggDone =
            { s with readyTaskActive := false, aggEmits := s.aggEmits + 1 } := by
          simp [stepD, hactive.1, hs]
        rw [List.foldl_cons, hstep]
        have h := ih { s with readyTaskActive := false, aggEmits := s.aggEmits + 1 }
          hnr' hs hstart (Or.inr ⟨rfl, by simp [hactive.2]⟩)
        exact ⟨h.1, h.2.1, h.2.2.1, fun _ => h.2.2.2 (Or.inr rfl)⟩
      | inr hdone =>
        have hstep : stepD s DEv.aggDone = s := by
          simp [stepD, hdone.1]
        rw [List.foldl_cons, hstep]
        have h := ih s hnr' hs hstart (Or.inr hdone)
        exact ⟨h.1, h.2.1, h.2.2.1, fun _ => h.2.2.2 (Or.inr hdone.1)⟩

/-- C1: within one connection lifetime (no invalidation/reset), for any
inbound event sequence in which every shard's READY is handled before
the all-shards-connected signal (per the spec the signal fires only
once all shards completed their connect handshake) and the aggregate
quiescence wait then runs to completion, the aggregate wait is started
exactly once — by the first READY — and the aggregate `Ready` event is
emitted exactly once, no matter how many shards send READY or how often
the completed wait's timeout could fire again. -/
theorem aggregate_ready_emitted_exactly_once (l1 l2 : List DEv)
    (h1 : DEv.ready ∈ l1) (h2 : DEv.shardsConnected ∉ l1)
    (h3 : DEv.ready ∉ l2) (h4 : DEv.aggDone ∈ l2) :
    (runD (l1 ++ DEv.shardsConnected :: l2)).aggEmits = 1
      ∧ (runD (l1 ++ DEv.shardsConnected :: l2)).aggStarts = 1 := by
  have hp1 := dispatch_phase1 l1 DState.init h2 rfl rfl
    (fun hc => Bool.noConfusion hc) (fun _ => rfl)
  have hactive : (List.foldl stepD DState.init l1).readyTaskActive = true :=
    hp1.2.2.2.2 (Or.inl h1)
  have hp2 := dispatch_phase2 l2 (stepD (List.foldl stepD DState.init l1) DEv.shardsConnected)
    h3 rfl (hp1.2.2.1 hactive) (Or.inl ⟨hactive, hp1.2.1⟩)
  have hfin : runD (l1 ++ DEv.shardsConnected :: l2) =
      List.foldl stepD (stepD (List.foldl stepD DState.init l1) DEv.shardsConnected) l2 := by
    rw [runD, List.foldl_append, List.foldl_cons]
  have hinactive := hp2.2.2.2 (Or.inl h4)
  rw [hfin]
  refine ⟨?_, hp2.2.1⟩
  cases hp2.2.2.1 with
  | inl hc => rw [hc.1] at hinactive; exact Bool.noConfusion hinactive
  | inr hc => exact hc.2

/-- C1 witness: two shards' READY payloads, then the connect signal,
then the (possibly repeatedly polled) aggregate completion: one start,
one emission. -/
theorem aggregate_ready_emitted_exactly_once_witness :
    (runD ([DEv.ready, DEv.ready] ++ DEv.shardsConnected ::
        [DEv.aggDone, DEv.aggDone])).aggEmits = 1
      ∧ (runD ([DEv.ready, DEv.ready] ++ DEv.shardsConnected ::
        [DEv.aggDone, DEv.aggDone])).aggStarts = 1 :=
  aggregate_ready_emitted_exactly_once [DEv.ready, DEv.ready] [DEv.aggDone, DEv.aggDone]
    (by decide) (by decide) (by decide) (by decide)

/-- Timing model of the quiescence loop of
`DispatchHandler._prepare_ready` (`qord/core/dispatch.py` lines
96-101): at `armTime` a fresh future is armed and
`asyncio.wait_for(waiter, timeout)` starts; if the next
guild-availability event time lies within the window it resolves the
future and the loop re-arms at that time, otherwise the wait times out
and the loop exits at `armTime + timeout`.  Returns the completion
time, after which the ready event is emitted (lines 103-106).  Event
times are assumed strictly increasing and later than `armTime`. -/
def quiescenceFire (timeout : ℚ) : ℚ → List ℚ → ℚ
  | armTime, [] => armTime + timeout
  | armTime, e :: es => if e ≤ armTime + timeout then quiescenceFire timeout e es
      else armTime + timeout

/-- C4: with debounce `T = 2.0`, guild-availability events at `t = 0.5,
1.0, 1.5` keep restarting the timer, so the wait completes only at
`t = 3.5` — `T` after the last event — and with zero events it
completes at `t = 2.0` after a single timed-out poll. -/
theorem quiescence_debounce_times :
    quiescenceFire 2 0 [1/2, 1, 3/2] = 7/2
      ∧ quiescenceFire 2 0 [1/2, 1, 3/2] = 3/2 + 2
      ∧ quiescenceFire 2 0 [] = 2 := by
  refine ⟨by norm_num [quiescenceFire], by norm_num [quiescenceFire], by norm_num [quiescenceFire]⟩

/-- Modelled from the spec: the `Guild` data-model class
(`qord/models/guilds.py` is outside the specified core, interfaces
only).  Per spec section 4.3, a guild representation is constructed
from the payload and carries an availability flag; only the
`unavailable` attribute and identity are relevant to the dispatch
core. -/
structure Guild : Type where
  gid : Nat
  unavailable : Bool
deriving DecidableEq, Repr

/-- A GUILD_CREATE payload, reduced to the fields the dispatch core
reads. -/
structure GuildPayload : Type where
  gid : Nat
  unavailable : Bool
deriving DecidableEq, Repr

/-- Modelled from the spec: `Guild(data, client=..., enable_cache=True)`
(`qord/core/dispatch.py` line 130) builds the guild representation from
the payload. -/
def buildGuild (p : GuildPayload) : Guild :=
  Guild.mk p.gid p.unavailable

/-- State read and written by `DispatchHandler.on_guild_create`: the
guild cache (spec section 6, `addGuild` interface, modelled as a list)
and `_guild_create_waiter`, an optional single-slot future that is
`some none` while armed and unresolved and `some (some g)` once
resolved with guild `g`. -/
structure GCState : Type where
  cache : List Guild
  waiter : Option (Option Guild)
deriving DecidableEq, Repr

/-- `asyncio.Future.set_result` on the waiter: raises
`InvalidStateError` (modelled as `Except.error`) if the future is
already done. -/
def setFutureResult (f : Option Guild) (g : Guild) : Except String (Option Guild) :=
  match f with
  | none => Except.ok (some g)
  | some _ => Except.error "InvalidStateError"

/-- `asyncio.Future.done()`. -/
def futureDone (f : Option Guild) : Bool := f.isSome

/-- `DispatchHandler.on_guild_create` (`qord/core/dispatch.py` lines
128-139): build the guild, add it to the cache only when not flagged
unavailable, then resolve the current waiter only if one exists and is
not already done. -/
def onGuildCreate (s : GCState) (p : GuildPayload) : Except String GCState :=
  let guild := buildGuild p
  let cache' := if !guild.unavailable then guild :: s.cache else s.cache
  match s.waiter with
  | none => Except.ok (GCState.mk cache' none)
  | some f =>
      if futureDone f then Except.ok (GCState.mk cache' (some f))
      else
        match setFutureResult f guild with
        | Except.ok f' => Except.ok (GCState.mk cache' (some f'))
        | Except.error e => Except.error e

/-- C5: handling a GUILD_CREATE flagged unavailable leaves the cache
unchanged while an available one prepends the guild, and in either case
an armed, unresolved quiescence future is resolved with the constructed
guild. -/
theorem guild_create_unavailable_cache_and_waiter (s : GCState) (p : GuildPayload) :
    ∃ s', onGuildCreate s p = Except.ok s'
      ∧ (p.unavailable = true → s'.cache = s.cache)
      ∧ (p.unavailable = false → s'.cache = buildGuild p :: s.cache)
      ∧ (s.waiter = some none → s'.waiter = some (some (buildGuild p))) := by
  cases hw : s.waiter with
  | none =>
    refine ⟨_, by rw [onGuildCreate, hw], ?_, ?_, ?_⟩
    · intro hu; simp [buildGuild, hu]
    · intro hu; simp [buildGuild, hu]
    · intro hc; exact Option.noConfusion hc
  | some f =>
    cases f with
    | none =>
      refine ⟨_, by rw [onGuildCreate, hw]; rfl, ?_, ?_, ?_⟩
      · intro hu; simp [buildGuild, hu]
      · intro hu; simp [buildGuild, hu]
      · intro _; rfl
    | some g =>
      refine ⟨_, by rw [onGuildCreate, hw]; rfl, ?_, ?_, ?_⟩
      · intro hu; simp [buildGuild, hu]
      · intro hu; simp [buildGuild, hu]
      · intro hc; exact Option.noConfusion (Option.some.inj hc)

/-- C5 witness: an unavailable guild payload against a state with an
armed, unresolved waiter — the cache is untouched and the waiter is
resolved. -/
theorem guild_create_unavailable_cache_and_waiter_witness :
    ∃ s', onGuildCreate (GCState.mk [] (some none)) (GuildPayload.mk 7 true) = Except.ok s'
      ∧ s'.cache = []
      ∧ s'.waiter = some (some (buildGuild (GuildPayload.mk 7 true))) := by
  obtain ⟨s', hok, hu, -, hwres⟩ :=
    guild_create_unavailable_cache_and_waiter (GCState.mk [] (some none)) (GuildPayload.mk 7 true)
  exact ⟨s', hok, hu rfl, hwres rfl⟩

/-- C10: `on_guild_create` never raises — in particular the
`waiter and not waiter.done()` guard (lines 137-139) prevents
`set_result` on an already-resolved future — and an event arriving
after the current future was resolved but before the loop re-arms
leaves the resolved future exactly as it was, so it cannot count as a
second resolution restarting the debounce timer. -/
theorem guild_create_waiter_resolved_once (s : GCState) (p : GuildPayload) :
    (∃ s', onGuildCreate s p = Except.ok s')
      ∧ (∀ g : Guild, s.waiter = some (some g) →
          ∃ s', onGuildCreate s p = Except.ok s' ∧ s'.waiter = some (some g)) := by
  constructor
  · cases hw : s.waiter with
    | none => exact ⟨_, by rw [onGuildCreate, hw]⟩
    | some f =>
      cases f with
      | none => exact ⟨_, by rw [onGuildCreate, hw]; rfl⟩
      | some g => exact ⟨_, by rw [onGuildCreate, hw]; rfl⟩
  · intro g hw
    exact ⟨_, by rw [onGuildCreate, hw]; rfl, rfl⟩

/-- C10 witness: a second unavailable-guild event arriving while the
waiter already holds guild 7 returns normally and leaves the resolved
waiter unchanged. -/
theorem guild_create_waiter_resolved_once_witness :
    ∃ s', onGuildCreate (GCState.mk [] (some (some (Guild.mk 7 true)))) (GuildPayload.mk 9 true)
        = Except.ok s'
      ∧ s'.waiter = some (some (Guild.mk 7 true)) := by
  exact (guild_create_waiter_resolved_once
    (GCState.mk [] (some (some (Guild.mk 7 true)))) (GuildPayload.mk 9 true)).2
    (Guild.mk 7 true) rfl

/-- Observable actions of one `DispatchHandler.handle` call. -/
inductive HandleAction : Type
  | rawDispatch (title : String)
  | invokeHandler (title : String)
deriving DecidableEq, Repr

/-- The handler table built by `DispatchHandler._update_handlers`
(`qord/core/dispatch.py` lines 61-69) from the
`@event_dispatch_handler` tags in the class body: `on_ready` for
`"READY"` (line 111) and `on_guild_create` for `"GUILD_CREATE"`
(line 128). -/
def dispatchHandlersTable : List String := ["READY", "GUILD_CREATE"]

/-- `DispatchHandler.handle` (`qord/core/dispatch.py` lines 74-84) as
its sequence of observable actions: when `debug_events` is set it first
invokes a `GatewayDispatch` event for the raw payload, then looks the
title up in `_handlers`, returning silently on `KeyError` (so the
function is total) and awaiting the named handler otherwise. -/
def handleActions (debug_events : Bool) (handlers : List String) (title : String) : List HandleAction :=
  (if debug_events then [HandleAction.rawDispatch title] else [])
    ++ (if handlers.contains title then [HandleAction.invokeHandler title] else [])

def isInvokeHandleAction : HandleAction → Bool
  | HandleAction.rawDispatch _ => false
  | HandleAction.invokeHandler _ => true

def isRawHandleAction : HandleAction → Bool
  | HandleAction.rawDispatch _ => true
  | HandleAction.invokeHandler _ => false

/-- C6: `handle` on a title absent from the handler table returns
normally (it is a total function) invoking no handler, with or without
debug mode; and with debug mode on, every call — registered title or
not — emits exactly one raw-dispatch event, placed before any handler
invocation. -/
theorem handle_unknown_title_and_debug (d : Bool) (title : String)
    (h : title ∉ dispatchHandlersTable) :
    (handleActions d dispatchHandlersTable title).countP isInvokeHandleAction = 0
      ∧ (∀ t2 : String,
          (handleActions true dispatchHandlersTable t2).countP isRawHandleAction = 1
            ∧ (handleActions true dispatchHandlersTable t2).head?
                = some (HandleAction.rawDispatch t2)) := by
  constructor
  · cases d <;> simp [handleActions, h, isInvokeHandleAction, List.countP_cons]
  · intro t2
    by_cases hb : t2 ∈ dispatchHandlersTable <;>
      simp [handleActions, hb, isRawHandleAction, isInvokeHandleAction, List.countP_cons]

/-- C6 witness: the unregistered title `"FOO"` with debug mode on. -/
theorem handle_unknown_title_and_debug_witness :
    (handleActions true dispatchHandlersTable "FOO").countP isInvokeHandleAction = 0
      ∧ (handleActions true dispatchHandlersTable "FOO").countP isRawHandleAction = 1
      ∧ (handleActions true dispatchHandlersTable "FOO").head?
          = some (HandleAction.rawDispatch "FOO") := by
  have h := handle_unknown_title_and_debug true "FOO" (by decide)
  exact ⟨h.1, (h.2 "FOO").1, (h.2 "FOO").2⟩

/-- The placeholder names a template mentions, mirroring the scan of
`renderGo`. -/
def templateFields : Option (List Char) → List Char → List String
  | _, [] => []
  | none, c :: cs =>
      if c = lbraceChar then templateFields (some []) cs else templateFields none cs
  | some acc, c :: cs =>
      if c = rbraceChar then String.mk acc :: templateFields none cs
      else templateFields (some (acc ++ [c])) cs

/-- If the template mentions a placeholder with no matching parameter,
rendering reports an error. -/
theorem renderGo_error_of_missing (ps : List (String × PyVal)) (cs : List Char) :
    ∀ mode : Option (List Char),
      (∃ n ∈ templateFields mode cs, lookupKey ps n = none) →
      ∃ e, renderGo ps mode cs = Except.error e := by
  induction cs with
  | nil =>
    intro mode hex
    cases mode with
    | none =>
      obtain ⟨n, hn, -⟩ := hex
      rw [templateFields] at hn
      exact absurd hn (List.not_mem_nil n)
    | some acc => exact ⟨"unterminated placeholder", rfl⟩
  | cons c cs ih =>
    intro mode hex
    cases mode with
    | none =>
      by_cases hc : c = lbraceChar
      · rw [templateFields, if_pos hc] at hex
        obtain ⟨e, herr⟩ := ih (some []) hex
        exact ⟨e, by rw [renderGo, if_pos hc, herr]⟩
      · rw [templateFields, if_neg hc] at hex
        obtain ⟨e, herr⟩ := ih none hex
        exact ⟨e, by rw [renderGo, if_neg hc, herr]; rfl⟩
    | some acc =>
      by_cases hc : c = rbraceChar
      · cases hlook : lookupKey ps (String.mk acc) with
        | none =>
          exact ⟨"KeyError " ++ String.mk acc, by rw [renderGo, if_pos hc, hlook]⟩
        | some v =>
          rw [templateFields, if_pos hc] at hex
          obtain ⟨n, hn, hmiss⟩ := hex
          rcases List.mem_cons.mp hn with hacc | htail
          · rw [hacc] at hmiss
            rw [hmiss] at hlook
            exact Option.noConfusion hlook
          · obtain ⟨e, herr⟩ := ih none ⟨n, htail, hmiss⟩
            exact ⟨e, by rw [renderGo, if_pos hc, hlook, herr]; rfl⟩
      · rw [templateFields, if_neg hc] at hex
        obtain ⟨e, herr⟩ := ih (some (acc ++ [c])) hex
        exact ⟨e, by rw [renderGo, if_neg hc, herr]⟩

/-- C8 counterexample: for the route built from template
`/guilds/(guild_id)/roles` with no parameters at all, construction
succeeds — `Route.__init__` only stores its arguments — and the
`KeyError` for the missing placeholder parameter is raised only when
`url` is evaluated, refuting the claim that the failure occurs at
construction time. -/
theorem route_missing_param_eager_failure_counterexample :
    routeInit "GET" "/guilds/{guild_id}/roles" true []
        = Except.ok (Route.mk "GET" "/guilds/{guild_id}/roles" true [])
      ∧ (Route.mk "GET" "/guilds/{guild_id}/roles" true []).url
          = Except.error "KeyError guild_id" := by
  exact ⟨rfl, rfl⟩

/-- C8 (amended): constructing a route never fails, whatever the
parameters; for every route whose path template contains a placeholder
with no matching named parameter, the template-rendering failure is
raised when the request's `url` is evaluated (request time), not at
construction time. -/
theorem route_construction_total_url_fails_late (m p : String) (auth : Bool)
    (ps : List (String × PyVal)) :
    routeInit m p auth ps = Except.ok (Route.mk m p auth ps)
      ∧ ((∃ n ∈ templateFields none p.data, lookupKey ps n = none) →
          ∃ e, (Route.mk m p auth ps).url = Except.error e) := by
  refine ⟨rfl, fun hex => ?_⟩
  obtain ⟨e, herr⟩ := renderGo_error_of_missing ps p.data none hex
  exact ⟨e, by rw [Route.url]; show (formatMap p ps).map _ = _; rw [formatMap, herr]; rfl⟩

/-- C8 witness: the template mentions `guild_id` but only `x` is
supplied — construction succeeds and `url` reports an error. -/
theorem route_construction_total_url_fails_late_witness :
    routeInit "GET" "/guilds/{guild_id}/roles" true [("x", PyVal.int 1)]
        = Except.ok (Route.mk "GET" "/guilds/{guild_id}/roles" true [("x", PyVal.int 1)])
      ∧ ∃ e, (Route.mk "GET" "/guilds/{guild_id}/roles" true [("x", PyVal.int 1)]).url
          = Except.error e := by
  have h := route_construction_total_url_fails_late "GET" "/guilds/{guild_id}/roles" true
    [("x", PyVal.int 1)]
  exact ⟨h.1, h.2 ⟨"guild_id", by decide, by decide⟩⟩
